import Mathlib

/-!
Verification of the Elections-Scraper program (`main.py`).

The file gives a shallow embedding of the scraper's pure logic:
argument validation (`parse_args`), numeric normalization
(`clean_number`), municipality discovery (`find_municipalities`),
summary extraction (`extract_summary_numbers`), party-vote extraction
(`extract_party_votes`), CSV assembly (`write_csv`) and the driving
pipeline (`mainModel`).  HTML access (BeautifulSoup) and network fetch
are external collaborators; pages are therefore modelled by the texts
the code reads off them (anchor hrefs and texts, table-row cell texts,
`headers`-attributed cells), and fetching by total functions returning
`Except` to mirror `die`-on-failure.  URL resolution (`urljoin`, from
the standard library) is an explicit function parameter `join`.
-/

set_option autoImplicit false

namespace Scraper

/-! ### Python string primitives used by the code -/

/-- Characters removed by Python's `str.strip()` (the whitespace set,
restricted to the characters that can appear in the scraped texts). -/
def pyIsSpace (c : Char) : Bool :=
  c == ' ' || c == '\t' || c == '\n' || c == '\r' || c == '\x0b' || c == '\x0c' || c == '\xa0'

/-- Python `str.strip()` on a character list. -/
def pyStripList (l : List Char) : List Char :=
  ((l.dropWhile pyIsSpace).reverse.dropWhile pyIsSpace).reverse

/-- Python `str.strip()`. -/
def pyStrip (s : String) : String :=
  ⟨pyStripList s.data⟩

/-- Decimal value of a digit list, most significant first. -/
def digitsToNat (l : List Char) : Nat :=
  l.foldl (fun a c => 10 * a + (c.toNat - 48)) 0

/-- Python `str.isdigit()` on a character list: nonempty and all digits. -/
def pyIsDigitL (l : List Char) : Bool :=
  !l.isEmpty && l.all Char.isDigit

/-- Python `str.isdigit()`. -/
def pyIsDigit (s : String) : Bool :=
  pyIsDigitL s.data

/-- Python `pat in s` substring test. -/
def strContainsSub (s pat : String) : Bool :=
  s.data.tails.any (fun t => pat.data.isPrefixOf t)

/-- Python `str.lower()` (ASCII case folding, all the code compares is ASCII). -/
def pyLower (s : String) : String :=
  ⟨s.data.map Char.toLower⟩

/-- Python `s.startswith(pat)`. -/
def startsWithL (pat s : String) : Bool :=
  pat.data.isPrefixOf s.data

/-- Python `s.endswith(pat)`. -/
def endsWithL (pat s : String) : Bool :=
  pat.data.isSuffixOf s.data

/-! ### `clean_number` (main.py lines 59-62) -/

/-- The remainder examined by `clean_number`: the input with every
non-breaking space and plain space removed, then `str.strip()`-ped.
(`text.replace("\xa0", "").replace(" ", "").strip()`). -/
def cleanRemainder (text : String) : List Char :=
  pyStripList (text.data.filter (fun c => !(c == '\xa0' || c == ' ')))

/-- `clean_number`: `int(t) if t.isdigit() else 0`. -/
def clean_number (text : String) : Nat :=
  let t := cleanRemainder text
  if pyIsDigitL t then digitsToNat t else 0

/-! ### `parse_args` (main.py lines 28-45)

`die` prints and exits with a nonzero status; every `die` path is
modelled as `Except.error` carrying the printed message. -/

/-- The stripped URL argument (`argv[1].strip()`). -/
def argUrl (argv : List String) : String :=
  pyStrip (argv.getD 1 "")

/-- The stripped output-path argument (`argv[2].strip()`). -/
def argOut (argv : List String) : String :=
  pyStrip (argv.getD 2 "")

def parse_args (argv : List String) : Except String (String × String) :=
  if argv.length ≠ 3 then
    Except.error "Usage: python main.py <URL> <output.csv>"
  else if !(startsWithL "http://" (argUrl argv) || startsWithL "https://" (argUrl argv)) then
    Except.error "Error: First argument must be a valid URL starting with http(s)."
  else if !strContainsSub (argUrl argv) "volby.cz" then
    Except.error "Error: URL must point to volby.cz."
  else if !endsWithL ".csv" (pyLower (argOut argv)) then
    Except.error "Error: Second argument must be a .csv file name."
  else
    Except.ok (argUrl argv, argOut argv)

/-! ### `find_municipalities` (main.py lines 65-105)

A district page is modelled by the list of its anchor elements, each
carrying the text the code reads: `href`, the stripped link text
(`a.get_text(strip=True)`), and — when the anchor sits inside a `<tr>`
— the texts of that row's `<td>` cells. -/

structure Anchor where
  href : String
  text : String
  rowTds : Option (List String)
deriving DecidableEq

structure Municipality where
  code : String
  name : String
  url : String
deriving DecidableEq

/-- The body of the anchor loop of `find_municipalities`: the entry an
anchor contributes, or `none` when a `continue` fires. -/
def anchorEntry (join : String → String → String) (base : String) (a : Anchor) : Option Municipality :=
  if !strContainsSub a.href "xobec=" then none
  else if !pyIsDigit a.text then none
  else
    match a.rowTds with
    | none => none
    | some tds =>
      if tds.length < 2 then none
      else some ⟨a.text, tds.getD 1 "", join base a.href⟩

/-- One step of `unique[m["code"]] = m` on an insertion-ordered dict
modelled as an association list: update in place if the key exists,
append otherwise. -/
def updAssoc (l : List (String × Municipality)) (k : String) (v : Municipality) :
    List (String × Municipality) :=
  if l.any (fun p => p.1 == k) then
    l.map (fun p => if p.1 == k then (k, v) else p)
  else
    l ++ [(k, v)]

/-- `list(unique.values())` after inserting every municipality. -/
def dedupByCode (ms : List Municipality) : List Municipality :=
  (ms.foldl (fun acc m => updAssoc acc m.code m) []).map Prod.snd

def find_municipalities (join : String → String → String) (base : String)
    (anchors : List Anchor) : Except String (List Municipality) :=
  let result := dedupByCode (anchors.filterMap (anchorEntry join base))
  if result.isEmpty then
    Except.error "Error: No municipalities found on the provided URL. Is it a district page?"
  else
    Except.ok result

/-! ### `extract_summary_numbers` (main.py lines 108-138) and
`extract_party_votes` (main.py lines 141-170)

A municipality page is modelled by what the two extractors read:
the `headers`-attributed `<td>` cells (attribute value and cell text,
in document order) and the `table tr` rows.  Each row carries the texts
of its `td`/`th` cells (`cells`), the texts of its `td` cells (`tds`),
and the text of its first `td.overflow_name` cell when present. -/

structure Row where
  cells : List String
  tds : List String
  overflowName : Option String
deriving DecidableEq

structure MuniPage where
  headerTds : List (String × String)
  rows : List Row
deriving DecidableEq

/-- `by_headers`: first `<td>` whose `headers` attribute matches, else 0. -/
def by_headers (page : MuniPage) (h : String) : Nat :=
  match page.headerTds.find? (fun p => p.1 == h) with
  | some p => clean_number p.2
  | none => 0

structure Summary where
  registered : Nat
  envelopes : Nat
  valid : Nat
deriving DecidableEq

/-- One row of the label-based fallback scan: fill each still-zero field
whose label occurs in the first cell from the second cell. -/
def fbStep (st : Summary) (row : Row) : Summary :=
  if row.cells.length < 2 then st
  else
    let c0 := row.cells.getD 0 ""
    let c1 := row.cells.getD 1 ""
    { registered :=
        if strContainsSub c0 "Voliči v seznamu" && st.registered == 0 then clean_number c1
        else st.registered
      envelopes :=
        if strContainsSub c0 "Vydané obálky" && st.envelopes == 0 then clean_number c1
        else st.envelopes
      valid :=
        if strContainsSub c0 "Platné hlasy" && st.valid == 0 then clean_number c1
        else st.valid }

def extract_summary_numbers (page : MuniPage) : Nat × Nat × Nat :=
  let registered := by_headers page "sa2"
  let envelopes := by_headers page "sa3"
  let valid := by_headers page "sa6"
  if registered == 0 || envelopes == 0 || valid == 0 then
    let f := page.rows.foldl fbStep ⟨registered, envelopes, valid⟩
    (f.registered, f.envelopes, f.valid)
  else
    (registered, envelopes, valid)

/-- One row of the party loop: rows without an `overflow_name` cell or
with fewer than three `<td>`s are skipped; an empty or already-seen
name adds nothing. -/
def partyStep (st : List String × List (String × Nat)) (row : Row) :
    List String × List (String × Nat) :=
  match row.overflowName with
  | none => st
  | some party =>
    if row.tds.length < 3 then st
    else if party ≠ "" ∧ ¬ st.2.any (fun p => p.1 == party) then
      (st.1 ++ [party], st.2 ++ [(party, clean_number (row.tds.getD 2 ""))])
    else st

def extract_party_votes (page : MuniPage) :
    Except String (List String × List (String × Nat)) :=
  if (page.rows.foldl partyStep ([], [])).2.isEmpty then
    Except.error "Error: Could not extract party results from municipality page."
  else
    Except.ok (page.rows.foldl partyStep ([], []))

/-! ### `scrape_municipality` (main.py lines 173-189), `write_csv`
(main.py lines 192-205) and `main` (main.py lines 208-234) -/

/-- The flat dict built per municipality (`_party_order`/`_party_votes`
are the internal helpers not written to the CSV). -/
structure Rec where
  code : String
  location : String
  registered : Nat
  envelopes : Nat
  valid : Nat
  party_order : List String
  party_votes : List (String × Nat)
deriving DecidableEq

/-- Fetching a municipality page: the network collaborator, as a total
function into `Except` (`die` on a non-200 status is the error case). -/
def scrape_municipality (pages : String → Except String MuniPage) (m : Municipality) :
    Except String Rec := do
  let page ← pages m.url
  let s := extract_summary_numbers page
  let pv ← extract_party_votes page
  pure ⟨m.code, m.name, s.1, s.2.1, s.2.2, pv.1, pv.2⟩

/-- `votes.get(p, 0)`. -/
def lookupD (votes : List (String × Nat)) (p : String) : Nat :=
  match votes.find? (fun q => q.1 == p) with
  | some q => q.2
  | none => 0

/-- Minimal CSV field quoting (`csv.QUOTE_MINIMAL`). -/
def csvField (s : String) : String :=
  if s.data.any (fun c => c == ',' || c == '"' || c == '\n' || c == '\r') then
    "\"" ++ (⟨s.data.foldr (fun c acc => if c == '"' then '"' :: '"' :: acc else c :: acc) []⟩ : String) ++ "\""
  else s

def renderLine (cells : List String) : String :=
  String.intercalate "," (cells.map csvField)

/-- The cells of one output row: the five fixed fields then, for each
schema party column, `votes.get(p, 0)` rendered in decimal. -/
def assembleRow (party_cols : List String) (r : Rec) : List String :=
  [r.code, r.location, toString r.registered, toString r.envelopes, toString r.valid]
    ++ party_cols.map (fun p => toString (lookupD r.party_votes p))

/-- `write_csv`, as the list of lines of the written file. -/
def write_csv (rows : List Rec) (party_cols : List String) : List String :=
  renderLine (["code", "location", "registered", "envelopes", "valid"] ++ party_cols)
    :: rows.map (fun r => renderLine (assembleRow party_cols r))

/-- The scrape loop of `main`: accumulate rows, set `party_cols` from
the first record whose party order is available while it is still empty. -/
def loopGo (pages : String → Except String MuniPage) :
    List Municipality → List Rec → List String → Except String (List Rec × List String)
  | [], rows, party_cols => Except.ok (rows, party_cols)
  | m :: rest, rows, party_cols => do
    let data ← scrape_municipality pages m
    let party_cols := if party_cols.isEmpty then data.party_order else party_cols
    loopGo pages rest (rows ++ [data]) party_cols

/-- The scraped site: fetching-and-parsing the district page at a URL,
and fetching-and-parsing each municipality page at its URL. -/
structure Site where
  district : String → Except String (List Anchor)
  pages : String → Except String MuniPage

/-- `main`: an `Except.error` is a `die` (nonzero exit, no file written);
`Except.ok` holds the lines of the written file (exit 0). -/
def mainModel (join : String → String → String) (argv : List String) (site : Site) :
    Except String (List String) := do
  let args ← parse_args argv
  let anchors ← site.district args.1
  let municipalities ← find_municipalities join args.1 anchors
  let res ← loopGo site.pages municipalities [] []
  pure (write_csv res.1 res.2)

/-! ### Scenario fixtures and specification-side definitions

Concrete pages and sites used by the scenario claims, and the
specification-side notions (first-seen order, last-seen entry, dict
lookup) the deduplication claim is compared against. -/

/-- The spec's fallback scenario page: no primary structural markers,
one labelled row. -/
def labelPage : MuniPage := ⟨[], [⟨["Voliči v seznamu", "1 234"], [], none⟩]⟩

/-- A page with nothing the extractor can read. -/
def emptyPage : MuniPage := ⟨[], []⟩

/-- A page whose `sa2` cell genuinely reads `0`, with a fallback row. -/
def zeroSa2Page : MuniPage :=
  ⟨[("sa2", "0"), ("sa3", "80"), ("sa6", "75")], [⟨["Voliči v seznamu", "77"], [], none⟩]⟩

/-- A row that actually contributes a party entry: it has the
`overflow_name` marker cell with a nonempty name, and at least three
`<td>` cells. -/
def qualRow (row : Row) : Prop :=
  row.overflowName.getD "" ≠ "" ∧ 3 ≤ row.tds.length

/-- A page whose single row carries the `overflow_name` marker cell but
only two `<td>` cells. -/
def markerOnlyPage : MuniPage := ⟨[], [⟨[], ["a", "b"], some "X"⟩]⟩

/-- A one-municipality site result used to instantiate C2's loop part. -/
def wRes : List Rec × List String := ([⟨"1", "N", 0, 0, 0, ["P"], [("P", 7)]⟩], ["P"])

/-- URL resolution instance used by the scenario: hrefs are taken as
already absolute. -/
def demoJoin : String → String → String := fun _ r => r

def demoArgv : List String := ["main.py", "https://www.volby.cz/ps3", "out.csv"]

/-- The spec's district page: two municipality links. -/
def demoAnchors : List Anchor :=
  [⟨"ps311?xobec=500054", "500054", some ["500054", "Alfa"]⟩,
    ⟨"ps311?xobec=500062", "500062", some ["500062", "Beta"]⟩]

/-- The spec's municipality page: registered=100, envelopes=80,
valid=75, parties "Strana X": 40 and "Strana Y": 35. -/
def demoPage : MuniPage :=
  ⟨[("sa2", "100"), ("sa3", "80"), ("sa6", "75")],
    [⟨[], ["1", "Strana X", "40"], some "Strana X"⟩,
      ⟨[], ["1", "Strana Y", "35"], some "Strana Y"⟩]⟩

def demoSite : Site := ⟨fun _ => Except.ok demoAnchors, fun _ => Except.ok demoPage⟩

/-- The lines the run actually writes. -/
def demoLines : List String :=
  ["code,location,registered,envelopes,valid,Strana X,Strana Y",
    "500054,Alfa,100,80,75,40,35", "500062,Beta,100,80,75,40,35"]

/-- Value lookup in the dict model. -/
def assocFind (st : List (String × Municipality)) (k : String) : Option Municipality :=
  (st.find? (fun p => p.1 == k)).map Prod.snd

/-- Append each not-yet-seen key, in encounter order (the spec's
"first-seen order"), starting from `seen`. -/
def addSeen (seen : List String) (l : List String) : List String :=
  l.foldl (fun acc c => if c ∈ acc then acc else acc ++ [c]) seen

/-- The identifiers of a list in first-seen order. -/
def firstSeen (l : List String) : List String :=
  addSeen [] l

/-- The last entry carrying a given identifier (the spec's "last-seen
entry"). -/
def lastWith (ms : List Municipality) (c : String) : Option Municipality :=
  (ms.filter (fun m => m.code == c)).getLast?

/-! ### Lemmas about the string primitives -/

lemma toNat_bounds_of_isDigit {c : Char} (h : c.isDigit = true) :
    48 ≤ c.toNat ∧ c.toNat ≤ 57 := by
  simp only [Char.isDigit, Bool.and_eq_true, decide_eq_true_eq] at h
  exact ⟨h.1, h.2⟩

lemma ne_of_toNat_lt_of_isDigit {c d : Char} (h : c.isDigit = true) (hd : d.toNat < 48) :
    c ≠ d := by
  intro he
  have := (toNat_bounds_of_isDigit h).1
  subst he
  omega

lemma ne_of_toNat_gt_of_isDigit {c d : Char} (h : c.isDigit = true) (hd : 57 < d.toNat) :
    c ≠ d := by
  intro he
  have := (toNat_bounds_of_isDigit h).2
  subst he
  omega

lemma not_space_of_isDigit {c : Char} (h : c.isDigit = true) :
    pyIsSpace c = false ∧ (c == '\xa0' || c == ' ') = false := by
  have h1 : c ≠ ' ' := ne_of_toNat_lt_of_isDigit h (by decide)
  have h2 : c ≠ '\t' := ne_of_toNat_lt_of_isDigit h (by decide)
  have h3 : c ≠ '\n' := ne_of_toNat_lt_of_isDigit h (by decide)
  have h4 : c ≠ '\r' := ne_of_toNat_lt_of_isDigit h (by decide)
  have h5 : c ≠ '\x0b' := ne_of_toNat_lt_of_isDigit h (by decide)
  have h6 : c ≠ '\x0c' := ne_of_toNat_lt_of_isDigit h (by decide)
  have h7 : c ≠ '\xa0' := ne_of_toNat_gt_of_isDigit h (by decide)
  simp [pyIsSpace, h1, h2, h3, h4, h5, h6, h7]

lemma dropWhile_eq_self_all {p : Char → Bool} {l : List Char}
    (h : ∀ c ∈ l, p c = false) : l.dropWhile p = l := by
  cases l with
  | nil => rfl
  | cons a l => simp [List.dropWhile_cons, h a (by simp)]

lemma pyStripList_eq_self {l : List Char} (h : ∀ c ∈ l, pyIsSpace c = false) :
    pyStripList l = l := by
  unfold pyStripList
  rw [dropWhile_eq_self_all h,
    dropWhile_eq_self_all (fun c hc => h c (by simpa using hc)),
    List.reverse_reverse]

/-! ### C4: `clean_number` -/

/-- C4: numeric normalization is total (a `Nat`-valued function of any
string): an already-clean decimal string (Python `isdigit`) is returned
as its integer value unchanged; a string of only spaces and
non-breaking spaces yields zero; any string whose remainder after
stripping contains a non-digit yields zero. -/
theorem clean_number_normalization :
    (∀ s : String, pyIsDigit s = true → clean_number s = digitsToNat s.data) ∧
    (∀ s : String, (∀ c ∈ s.data, c = ' ' ∨ c = '\xa0') → clean_number s = 0) ∧
    (∀ s : String, (∃ c ∈ cleanRemainder s, ¬ c.isDigit = true) → clean_number s = 0) := by
  refine ⟨fun s h => ?_, fun s h => ?_, fun s h => ?_⟩
  · simp only [pyIsDigit, pyIsDigitL, Bool.and_eq_true, Bool.not_eq_true',
      List.all_eq_true] at h
    have hfilter : s.data.filter (fun c => !(c == '\xa0' || c == ' ')) = s.data := by
      rw [List.filter_eq_self]
      intro c hc
      simp [(not_space_of_isDigit (h.2 c hc)).2]
    have hrem : cleanRemainder s = s.data := by
      rw [cleanRemainder, hfilter]
      exact pyStripList_eq_self (fun c hc => (not_space_of_isDigit (h.2 c hc)).1)
    simp only [clean_number, hrem]
    rw [if_pos]
    simp only [pyIsDigitL, List.all_eq_true, Bool.and_eq_true, Bool.not_eq_true']
    exact ⟨h.1, h.2⟩
  · have hfilter : s.data.filter (fun c => !(c == '\xa0' || c == ' ')) = [] := by
      rw [List.filter_eq_nil_iff]
      intro c hc
      rcases h c hc with h' | h' <;> simp [h']
    have hrem : cleanRemainder s = [] := by rw [cleanRemainder, hfilter]; rfl
    simp [clean_number, hrem, pyIsDigitL]
  · obtain ⟨c, hc, hcd⟩ := h
    have : pyIsDigitL (cleanRemainder s) = false := by
      simp only [pyIsDigitL, Bool.and_eq_false_iff]
      right
      rw [Bool.eq_false_iff]
      intro hall
      rw [List.all_eq_true] at hall
      exact hcd (hall c hc)
    simp [clean_number, this]

/-- Witness for C4 at concrete inputs. -/
theorem clean_number_normalization_inst :
    pyIsDigit "01234" = true ∧ clean_number "01234" = digitsToNat "01234".data ∧
    clean_number " \xa0 " = 0 ∧ clean_number "12a3" = 0 :=
  ⟨by decide, clean_number_normalization.1 "01234" (by decide),
    clean_number_normalization.2.1 " \xa0 " (by decide),
    clean_number_normalization.2.2 "12a3" (by decide)⟩

/-! ### C5 / C10: the summary extractor -/

lemma fbStep_preserve (st : Summary) (row : Row) :
    (st.registered ≠ 0 → (fbStep st row).registered = st.registered) ∧
    (st.envelopes ≠ 0 → (fbStep st row).envelopes = st.envelopes) ∧
    (st.valid ≠ 0 → (fbStep st row).valid = st.valid) := by
  unfold fbStep
  split
  · exact ⟨fun _ => rfl, fun _ => rfl, fun _ => rfl⟩
  · refine ⟨fun h => ?_, fun h => ?_, fun h => ?_⟩
    · have hb : (st.registered == 0) = false := by simpa using h
      simp [hb]
    · have hb : (st.envelopes == 0) = false := by simpa using h
      simp [hb]
    · have hb : (st.valid == 0) = false := by simpa using h
      simp [hb]

lemma foldl_fbStep_preserve (rows : List Row) :
    ∀ st : Summary,
      (st.registered ≠ 0 → (rows.foldl fbStep st).registered = st.registered) ∧
      (st.envelopes ≠ 0 → (rows.foldl fbStep st).envelopes = st.envelopes) ∧
      (st.valid ≠ 0 → (rows.foldl fbStep st).valid = st.valid) := by
  induction rows with
  | nil => exact fun st => ⟨fun _ => rfl, fun _ => rfl, fun _ => rfl⟩
  | cons row rows ih =>
    intro st
    refine ⟨fun h => ?_, fun h => ?_, fun h => ?_⟩
    · have hs := (fbStep_preserve st row).1 h
      rw [List.foldl_cons, (ih _).1 (by rw [hs]; exact h), hs]
    · have hs := (fbStep_preserve st row).2.1 h
      rw [List.foldl_cons, (ih _).2.1 (by rw [hs]; exact h), hs]
    · have hs := (fbStep_preserve st row).2.2 h
      rw [List.foldl_cons, (ih _).2.2 (by rw [hs]; exact h), hs]

/-- C5: the fallback scan runs only when a primary lookup is zero or
absent (all three nonzero: the primary values are returned untouched);
the scan never overwrites a nonzero field; the spec's scenario page
(`["Voliči v seznamu", "1 234"]`, no primary markers) yields
registered = 1234; total failure defaults all three fields to zero, the
extractor returning a value rather than aborting. -/
theorem extract_summary_fallback_spec :
    (∀ page : MuniPage, by_headers page "sa2" ≠ 0 → by_headers page "sa3" ≠ 0 →
        by_headers page "sa6" ≠ 0 →
        extract_summary_numbers page =
          (by_headers page "sa2", by_headers page "sa3", by_headers page "sa6")) ∧
    (∀ (rows : List Row) (st : Summary), st.registered ≠ 0 →
        (rows.foldl fbStep st).registered = st.registered) ∧
    (∀ (rows : List Row) (st : Summary), st.envelopes ≠ 0 →
        (rows.foldl fbStep st).envelopes = st.envelopes) ∧
    (∀ (rows : List Row) (st : Summary), st.valid ≠ 0 →
        (rows.foldl fbStep st).valid = st.valid) ∧
    extract_summary_numbers labelPage = (1234, 0, 0) ∧
    extract_summary_numbers emptyPage = (0, 0, 0) := by
  refine ⟨fun page h2 h3 h6 => ?_, fun rows st => (foldl_fbStep_preserve rows st).1,
    fun rows st => (foldl_fbStep_preserve rows st).2.1,
    fun rows st => (foldl_fbStep_preserve rows st).2.2, by decide, by decide⟩
  have e2 : (by_headers page "sa2" == 0) = false := by simpa using h2
  have e3 : (by_headers page "sa3" == 0) = false := by simpa using h3
  have e6 : (by_headers page "sa6" == 0) = false := by simpa using h6
  simp [extract_summary_numbers, e2, e3, e6]

/-- Witness for C5 at concrete inputs. -/
theorem extract_summary_fallback_spec_inst :
    extract_summary_numbers ⟨[("sa2", "5"), ("sa3", "6"), ("sa6", "7")], []⟩ = (5, 6, 7) ∧
    (([] : List Row).foldl fbStep ⟨1, 2, 3⟩).registered = 1 :=
  ⟨extract_summary_fallback_spec.1 ⟨[("sa2", "5"), ("sa3", "6"), ("sa6", "7")], []⟩
      (by decide) (by decide) (by decide),
    extract_summary_fallback_spec.2.1 [] ⟨1, 2, 3⟩ (by decide)⟩

/-- C10: whenever any primary lookup is zero — absent marker and genuine
`0` text alike — the fallback scan runs on all three fields, treating
each zero field as missing; on a page whose `sa2` cell genuinely reads
`0`, the fallback row `["Voliči v seznamu", "77"]` replaces the genuine
zero with 77. -/
theorem extract_summary_zero_refill :
    (∀ page : MuniPage,
        (by_headers page "sa2" = 0 ∨ by_headers page "sa3" = 0 ∨ by_headers page "sa6" = 0) →
        extract_summary_numbers page =
          ((page.rows.foldl fbStep
              ⟨by_headers page "sa2", by_headers page "sa3", by_headers page "sa6"⟩).registered,
            (page.rows.foldl fbStep
              ⟨by_headers page "sa2", by_headers page "sa3", by_headers page "sa6"⟩).envelopes,
            (page.rows.foldl fbStep
              ⟨by_headers page "sa2", by_headers page "sa3", by_headers page "sa6"⟩).valid)) ∧
    by_headers zeroSa2Page "sa2" = 0 ∧
    extract_summary_numbers zeroSa2Page = (77, 80, 75) := by
  refine ⟨fun page h => ?_, by decide, by decide⟩
  rcases h with h | h | h <;> simp [extract_summary_numbers, h]

/-- Witness for C10 at a concrete input. -/
theorem extract_summary_zero_refill_inst :
    extract_summary_numbers ⟨[("sa3", "8")], []⟩ = (0, 8, 0) :=
  (extract_summary_zero_refill.1 ⟨[("sa3", "8")], []⟩ (Or.inl (by decide))).trans (by decide)

/-! ### C6: the party-vote extractor -/

lemma partyStep_snd_nil (st : List String × List (String × Nat)) (row : Row) :
    (partyStep st row).2 = [] ↔ st.2 = [] ∧ ¬ qualRow row := by
  unfold partyStep qualRow
  cases hov : row.overflowName with
  | none => simp
  | some p =>
    simp only [Option.getD_some]
    split
    · next hlen => simp; omega
    · next hlen =>
      split
      · next hcond =>
        constructor
        · intro h
          exact absurd h (by simp)
        · rintro ⟨-, hq⟩
          exact absurd ⟨hcond.1, by omega⟩ hq
      · next hcond =>
        rcases not_and_or.mp hcond with hp | hseen
        · simp only [ne_eq, not_not] at hp
          simp [hp]
        · rw [not_not] at hseen
          have hne : st.2 ≠ [] := by
            intro heq
            rw [heq] at hseen
            simp at hseen
          constructor
          · intro h2
            exact absurd h2 hne
          · rintro ⟨h2, -⟩
            exact absurd h2 hne

lemma foldl_partyStep_nil (rows : List Row) :
    ∀ st : List String × List (String × Nat),
      ((rows.foldl partyStep st).2 = [] ↔ st.2 = [] ∧ ∀ row ∈ rows, ¬ qualRow row) := by
  induction rows with
  | nil => intro st; simp
  | cons row rows ih =>
    intro st
    rw [List.foldl_cons, ih, partyStep_snd_nil]
    simp only [List.forall_mem_cons]
    tauto

/-- C6 counterexample: this page has exactly one row containing the
party-name marker cell, yet the extractor aborts — so failure is not
"exactly when zero party rows are found". -/
theorem extract_party_marker_row_dies :
    (extract_party_votes markerOnlyPage).isOk = false ∧
    markerOnlyPage.rows.countP (fun row => row.overflowName.isSome) = 1 := by
  decide

/-- C6 (amended): the extractor aborts with the fatal
`NoPartyResultsFound` error exactly when no table row yields a party
entry, i.e. no row has the marker cell with a nonempty name together
with at least three cells; otherwise it returns the accumulated ordered
party list and name-to-votes mapping. -/
theorem extract_party_votes_error_iff :
    ∀ page : MuniPage,
      ((extract_party_votes page).isOk = false ↔ ∀ row ∈ page.rows, ¬ qualRow row) ∧
      ((∃ row ∈ page.rows, qualRow row) →
        extract_party_votes page = Except.ok (page.rows.foldl partyStep ([], []))) := by
  intro page
  have hchar := foldl_partyStep_nil page.rows ([], [])
  simp only [true_and] at hchar
  constructor
  · by_cases hr : (page.rows.foldl partyStep ([], [])).2 = []
    · have hThis : extract_party_votes page = Except.error
          "Error: Could not extract party results from municipality page." := by
        unfold extract_party_votes
        rw [if_pos (by simpa [List.isEmpty_iff] using hr)]
      rw [hThis]
      simp only [Except.isOk, Except.toBool]
      exact iff_of_true trivial (hchar.mp hr)
    · have hThis : extract_party_votes page = Except.ok (page.rows.foldl partyStep ([], [])) := by
        unfold extract_party_votes
        rw [if_neg (by simpa [List.isEmpty_iff] using hr)]
      rw [hThis]
      simp only [Except.isOk, Except.toBool]
      constructor
      · intro h
        exact absurd h (by simp)
      · intro hall
        exact absurd (hchar.mpr hall) hr
  · rintro ⟨row, hrow, hq⟩
    have hne : (page.rows.foldl partyStep ([], [])).2 ≠ [] :=
      fun hnil => absurd hq ((hchar.mp hnil) row hrow)
    unfold extract_party_votes
    rw [if_neg (by simpa [List.isEmpty_iff] using hne)]

/-! ### C7: the municipality locator's retention rule -/

/-- C7: an anchor contributes an entry exactly when its href contains
the `xobec=` query parameter, its visible text is purely numeric, and it
sits in a table row with at least two cells; the entry then takes the
link text as identifier, the row's second cell as name, and the
base-resolved href as detail URL. -/
theorem anchorEntry_characterization :
    ∀ (join : String → String → String) (base : String) (a : Anchor) (m : Municipality),
      anchorEntry join base a = some m ↔
        (strContainsSub a.href "xobec=" = true ∧ pyIsDigit a.text = true ∧
          ∃ tds, a.rowTds = some tds ∧ 2 ≤ tds.length ∧
            m = ⟨a.text, tds.getD 1 "", join base a.href⟩) := by
  intro join base a m
  unfold anchorEntry
  cases hx : strContainsSub a.href "xobec=" with
  | false => simp
  | true =>
    cases hd : pyIsDigit a.text with
    | false => simp
    | true =>
      simp only [Bool.not_true, Bool.false_eq_true, if_false, true_and]
      cases htds : a.rowTds with
      | none => simp
      | some tds =>
        dsimp only
        by_cases hlen : tds.length < 2
        · rw [if_pos hlen]
          constructor
          · intro h
            exact Option.noConfusion h
          · rintro ⟨tds', htds', hlen', -⟩
            injection htds' with h'
            subst h'
            omega
        · rw [if_neg hlen]
          constructor
          · intro h
            injection h with h'
            exact ⟨tds, rfl, by omega, h'.symm⟩
          · rintro ⟨tds', htds', -, hm⟩
            injection htds' with h'
            subst h'
            rw [hm]

/-- Witness for C7 at a concrete anchor. -/
theorem anchorEntry_characterization_inst :
    anchorEntry (fun b r => b ++ r) "http://volby.cz/" ⟨"x?xobec=9", "9", some ["9", "N"]⟩ =
      some ⟨"9", "N", "http://volby.cz/x?xobec=9"⟩ :=
  ((anchorEntry_characterization (fun b r => b ++ r) "http://volby.cz/"
      ⟨"x?xobec=9", "9", some ["9", "N"]⟩ ⟨"9", "N", "http://volby.cz/x?xobec=9"⟩).mpr
    ⟨by decide, by decide, ["9", "N"], rfl, by decide, by decide⟩)

/-! ### C9: argument validation -/

lemma not_bnot_eq_true {b : Bool} (h : ¬ (!b) = true) : b = true := by
  cases b with
  | false => exact absurd rfl h
  | true => rfl

lemma bool_or_elim {a b : Bool} (h : (a || b) = true) : a = true ∨ b = true := by
  cases a with
  | true => exact Or.inl rfl
  | false => exact Or.inr (by simpa using h)

/-- C9: validation accepts exactly the argument vectors of length three
whose stripped URL starts with `http://` or `https://` and contains
`volby.cz` anywhere, and whose stripped output path ends
case-insensitively in `.csv`; on any other shape the run fails with the
same error regardless of the site — no network access happens. -/
theorem parse_args_characterization :
    ∀ argv : List String,
      ((parse_args argv).isOk = true ↔
        argv.length = 3 ∧
          (startsWithL "http://" (argUrl argv) = true ∨
            startsWithL "https://" (argUrl argv) = true) ∧
          strContainsSub (argUrl argv) "volby.cz" = true ∧
          endsWithL ".csv" (pyLower (argOut argv)) = true) ∧
      (∀ (join : String → String → String) (s1 s2 : Site),
        (parse_args argv).isOk = false → mainModel join argv s1 = mainModel join argv s2) := by
  intro argv
  constructor
  · unfold parse_args
    split_ifs with hA hB hC hD
    · exact iff_of_false (by simp [Except.isOk, Except.toBool]) (fun hr => hA hr.1)
    · rw [Bool.not_eq_true', Bool.or_eq_false_iff] at hB
      refine iff_of_false (by simp [Except.isOk, Except.toBool]) ?_
      rintro ⟨-, h | h, -, -⟩
      · simp [hB.1] at h
      · simp [hB.2] at h
    · rw [Bool.not_eq_true'] at hC
      refine iff_of_false (by simp [Except.isOk, Except.toBool]) ?_
      rintro ⟨-, -, h, -⟩
      simp [hC] at h
    · rw [Bool.not_eq_true'] at hD
      refine iff_of_false (by simp [Except.isOk, Except.toBool]) ?_
      rintro ⟨-, -, -, h⟩
      simp [hD] at h
    · exact iff_of_true rfl
        ⟨not_not.mp hA, bool_or_elim (not_bnot_eq_true hB),
          not_bnot_eq_true hC, not_bnot_eq_true hD⟩
  · intro join s1 s2 hfail
    cases hp : parse_args argv with
    | error e => simp [mainModel, Bind.bind, Except.bind, hp]
    | ok p =>
      rw [hp] at hfail
      simp [Except.isOk, Except.toBool] at hfail

/-- Witness for C9 at concrete argument vectors. -/
theorem parse_args_characterization_inst :
    (parse_args ["main.py", "https://volby.cz/ps3", "o.csv"]).isOk = true ∧
    mainModel (fun _ r => r) ["main.py"] ⟨fun _ => Except.ok [], fun _ => Except.ok ⟨[], []⟩⟩ =
      mainModel (fun _ r => r) ["main.py"]
        ⟨fun _ => Except.error "offline", fun _ => Except.ok ⟨[], []⟩⟩ :=
  ⟨(parse_args_characterization ["main.py", "https://volby.cz/ps3", "o.csv"]).1.mpr
      ⟨by decide, Or.inr (by decide), by decide, by decide⟩,
    (parse_args_characterization ["main.py"]).2 (fun _ r => r)
      ⟨fun _ => Except.ok [], fun _ => Except.ok ⟨[], []⟩⟩
      ⟨fun _ => Except.error "offline", fun _ => Except.ok ⟨[], []⟩⟩ (by decide)⟩

/-! ### C2: schema projection -/

lemma lookupD_append_single (votes : List (String × Nat)) (p : String) (v : Nat) (q : String)
    (h : q ≠ p) : lookupD (votes ++ [(p, v)]) q = lookupD votes q := by
  induction votes with
  | nil =>
    have : (p == q) = false := by simpa using (Ne.symm h)
    simp [lookupD, List.find?, this]
  | cons w votes ih =>
    cases hw : (w.1 == q) with
    | true => simp [lookupD, List.find?, hw]
    | false =>
      simp only [lookupD, List.cons_append, List.find?, hw] at ih ⊢
      exact ih

lemma lookupD_eq_zero_of_not_mem (votes : List (String × Nat)) (q : String)
    (h : q ∉ votes.map Prod.fst) : lookupD votes q = 0 := by
  have : votes.find? (fun w => w.1 == q) = none := by
    rw [List.find?_eq_none]
    intro w hw
    simp only [beq_iff_eq]
    intro he
    exact h (he ▸ List.mem_map_of_mem Prod.fst hw)
  simp [lookupD, this]

lemma getD_map_lt {α β : Type} (f : α → β) (l : List α) (i : Nat) (d : β) (d' : α)
    (h : i < l.length) : (l.map f).getD i d = f (l.getD i d') := by
  induction l generalizing i with
  | nil => exact absurd h (by simp)
  | cons a l ih =>
    cases i with
    | zero => rfl
    | succ i => simpa using ih i (by simpa using h)

lemma partyStep_len_eq (st : List String × List (String × Nat)) (row : Row)
    (h : st.1.length = st.2.length) :
    (partyStep st row).1.length = (partyStep st row).2.length := by
  unfold partyStep
  cases row.overflowName with
  | none => exact h
  | some p =>
    dsimp only
    by_cases h3 : row.tds.length < 3
    · rw [if_pos h3]
      exact h
    · rw [if_neg h3]
      by_cases hc : p ≠ "" ∧ ¬ (st.2.any fun q => q.1 == p) = true
      · rw [if_pos hc]
        simp [h]
      · rw [if_neg hc]
        exact h

lemma foldl_partyStep_len (rows : List Row) :
    ∀ st : List String × List (String × Nat), st.1.length = st.2.length →
      (rows.foldl partyStep st).1.length = (rows.foldl partyStep st).2.length := by
  induction rows with
  | nil => exact fun st h => h
  | cons row rows ih =>
    intro st h
    rw [List.foldl_cons]
    exact ih _ (partyStep_len_eq st row h)

lemma extract_party_votes_ok_order {page : MuniPage} {pv : List String × List (String × Nat)}
    (h : extract_party_votes page = Except.ok pv) : pv.1 ≠ [] := by
  unfold extract_party_votes at h
  split at h
  · exact Except.noConfusion h
  · next hne =>
    injection h with h'
    have hlen := foldl_partyStep_len page.rows ([], []) rfl
    rw [h'] at hlen hne
    have h2 : pv.2 ≠ [] := by simpa [List.isEmpty_iff] using hne
    intro h1
    rw [h1] at hlen
    exact h2 (List.length_eq_zero.mp hlen.symm)

lemma scrape_ok_order {pages : String → Except String MuniPage} {m : Municipality} {r : Rec}
    (h : scrape_municipality pages m = Except.ok r) : r.party_order ≠ [] := by
  unfold scrape_municipality at h
  cases hp : pages m.url with
  | error e => rw [hp] at h; exact Except.noConfusion h
  | ok page =>
    rw [hp] at h
    simp only [Bind.bind, Except.bind] at h
    cases he : extract_party_votes page with
    | error e => rw [he] at h; exact Except.noConfusion h
    | ok pv =>
      rw [he] at h
      simp only [pure, Except.pure] at h
      injection h with h'
      rw [← h']
      exact extract_party_votes_ok_order he

lemma loopGo_pcols_fixed (pages : String → Except String MuniPage) :
    ∀ (ms : List Municipality) (rows : List Rec) (pcols : List String)
      (res : List Rec × List String), pcols ≠ [] →
      loopGo pages ms rows pcols = Except.ok res → res.2 = pcols := by
  intro ms
  induction ms with
  | nil =>
    intro rows pcols res hne h
    injection h with h'
    rw [← h']
  | cons m rest ih =>
    intro rows pcols res hne h
    simp only [loopGo] at h
    cases hs : scrape_municipality pages m with
    | error e => rw [hs] at h; exact Except.noConfusion h
    | ok data =>
      rw [hs] at h
      simp only [Bind.bind, Except.bind] at h
      rw [if_neg (by simpa [List.isEmpty_iff] using hne)] at h
      exact ih _ _ _ hne h

lemma loopGo_rows_prefix (pages : String → Except String MuniPage) :
    ∀ (ms : List Municipality) (rows : List Rec) (pcols : List String)
      (res : List Rec × List String),
      loopGo pages ms rows pcols = Except.ok res → ∃ extra, res.1 = rows ++ extra := by
  intro ms
  induction ms with
  | nil =>
    intro rows pcols res h
    injection h with h'
    exact ⟨[], by rw [← h', List.append_nil]⟩
  | cons m rest ih =>
    intro rows pcols res h
    simp only [loopGo] at h
    cases hs : scrape_municipality pages m with
    | error e => rw [hs] at h; exact Except.noConfusion h
    | ok data =>
      rw [hs] at h
      simp only [Bind.bind, Except.bind] at h
      obtain ⟨extra, he⟩ := ih _ _ _ h
      exact ⟨data :: extra, by rw [he, List.append_assoc]; rfl⟩

/-- C2: an assembled output row always has exactly the schema's column
count; a schema party absent from a record's vote mapping is written as
`0`; votes for parties outside the schema do not influence the row
(they are dropped); and the schema's party columns are those of the
first scraped municipality, fixed once (its party order is necessarily
nonempty, so no later record can re-seed the schema). -/
theorem schema_projection_total :
    (∀ (party_cols : List String) (r : Rec),
        (assembleRow party_cols r).length =
          (["code", "location", "registered", "envelopes", "valid"] ++ party_cols).length) ∧
    (∀ (party_cols : List String) (r : Rec) (i : Nat), i < party_cols.length →
        party_cols.getD i "" ∉ r.party_votes.map Prod.fst →
        (assembleRow party_cols r).getD (5 + i) "" = "0") ∧
    (∀ (party_cols : List String) (r : Rec) (p : String) (v : Nat), p ∉ party_cols →
        assembleRow party_cols
          ⟨r.code, r.location, r.registered, r.envelopes, r.valid, r.party_order,
            r.party_votes ++ [(p, v)]⟩ = assembleRow party_cols r) ∧
    (∀ (pages : String → Except String MuniPage) (ms : List Municipality)
        (res : List Rec × List String),
        loopGo pages ms [] [] = Except.ok res → ms ≠ [] →
        ∃ r0 rest, res.1 = r0 :: rest ∧ res.2 = r0.party_order ∧ r0.party_order ≠ []) := by
  refine ⟨fun party_cols r => ?_, fun party_cols r i hi hnm => ?_,
    fun party_cols r p v hp => ?_, fun pages ms res hok hne => ?_⟩
  · simp [assembleRow]
  · have harr : 5 + i = i + 1 + 1 + 1 + 1 + 1 := by omega
    rw [assembleRow]
    simp only [List.cons_append, List.nil_append, harr, List.getD_cons_succ]
    rw [getD_map_lt _ _ _ _ "" hi, lookupD_eq_zero_of_not_mem _ _ hnm]
    rfl
  · unfold assembleRow
    dsimp only
    have hmap : party_cols.map (fun q => toString (lookupD (r.party_votes ++ [(p, v)]) q)) =
        party_cols.map (fun q => toString (lookupD r.party_votes q)) := by
      apply List.map_congr_left
      intro q hq
      have hqp : q ≠ p := fun he => hp (he ▸ hq)
      rw [lookupD_append_single _ _ _ _ hqp]
    rw [hmap]
  · cases ms with
    | nil => exact absurd rfl hne
    | cons m rest =>
      simp only [loopGo] at hok
      cases hs : scrape_municipality pages m with
      | error e => rw [hs] at hok; exact Except.noConfusion hok
      | ok data =>
        rw [hs] at hok
        simp only [Bind.bind, Except.bind, List.isEmpty_nil, if_true, List.nil_append] at hok
        have hord : data.party_order ≠ [] := scrape_ok_order hs
        have h2 : res.2 = data.party_order := loopGo_pcols_fixed pages rest _ _ _ hord hok
        obtain ⟨extra, h1⟩ := loopGo_rows_prefix pages rest _ _ _ hok
        exact ⟨data, extra, by simpa using h1, h2, hord⟩

/-- Witness for C2 at concrete inputs. -/
theorem schema_projection_total_inst :
    (assembleRow ["P"] ⟨"1", "N", 1, 2, 3, ["P"], [("Q", 7)]⟩).length = 6 ∧
    (assembleRow ["P"] ⟨"1", "N", 1, 2, 3, ["P"], [("Q", 7)]⟩).getD 5 "" = "0" ∧
    assembleRow ["P"] ⟨"1", "N", 1, 2, 3, ["P"], [("Q", 7), ("Z", 9)]⟩ =
      assembleRow ["P"] ⟨"1", "N", 1, 2, 3, ["P"], [("Q", 7)]⟩ ∧
    (∃ r0 rest, wRes.1 = r0 :: rest ∧ wRes.2 = r0.party_order ∧ r0.party_order ≠ []) :=
  ⟨(schema_projection_total.1 ["P"] ⟨"1", "N", 1, 2, 3, ["P"], [("Q", 7)]⟩).trans (by decide),
    schema_projection_total.2.1 ["P"] ⟨"1", "N", 1, 2, 3, ["P"], [("Q", 7)]⟩ 0
      (by decide) (by decide),
    schema_projection_total.2.2.1 ["P"] ⟨"1", "N", 1, 2, 3, ["P"], [("Q", 7)]⟩ "Z" 9
      (by decide),
    schema_projection_total.2.2.2
      (fun _ => Except.ok ⟨[], [⟨[], ["1", "P", "7"], some "P"⟩]⟩) [⟨"1", "N", "u"⟩]
      wRes (by rfl) (by decide)⟩

/-! ### C1: the end-to-end scenario -/

/-- C1 counterexample: the end-to-end scenario succeeds, but the
header line of the written file is not
`identifier,name,registered,envelopes,valid,Strana X,Strana Y`
(the code's fixed columns are named `code` and `location`). -/
theorem run_header_not_identifier_name :
    mainModel demoJoin demoArgv demoSite = Except.ok demoLines ∧
    demoLines.getD 0 "" ≠ "identifier,name,registered,envelopes,valid,Strana X,Strana Y" :=
  ⟨rfl, by decide⟩

/-- C1 (amended): the header row is the schema columns in order
`[code, location, registered, envelopes, valid, party1, party2, ...]`,
and the end-to-end scenario writes header
`code,location,registered,envelopes,valid,Strana X,Strana Y` with data
rows `500054,Alfa,100,80,75,40,35` and `500062,Beta,100,80,75,40,35`. -/
theorem run_header_and_rows :
    (∀ (rows : List Rec) (party_cols : List String),
        (write_csv rows party_cols).getD 0 "" =
          renderLine (["code", "location", "registered", "envelopes", "valid"] ++ party_cols)) ∧
    mainModel demoJoin demoArgv demoSite =
      Except.ok ["code,location,registered,envelopes,valid,Strana X,Strana Y",
        "500054,Alfa,100,80,75,40,35", "500062,Beta,100,80,75,40,35"] :=
  ⟨fun _ _ => rfl, rfl⟩

/-! ### C8: fatal failures and the success path -/

lemma loopGo_isOk_iff (pages : String → Except String MuniPage) :
    ∀ (ms : List Municipality) (rows : List Rec) (pcols : List String),
      (loopGo pages ms rows pcols).isOk = true ↔
        ∀ m ∈ ms, (scrape_municipality pages m).isOk = true := by
  intro ms
  induction ms with
  | nil =>
    intro rows pcols
    simp [loopGo, Except.isOk, Except.toBool]
  | cons m rest ih =>
    intro rows pcols
    simp only [loopGo]
    cases hs : scrape_municipality pages m with
    | error e =>
      simp only [Bind.bind, Except.bind]
      refine iff_of_false (by simp [Except.isOk, Except.toBool]) ?_
      intro hall
      have := hall m (List.mem_cons_self m rest)
      rw [hs] at this
      simp [Except.isOk, Except.toBool] at this
    | ok data =>
      simp only [Bind.bind, Except.bind]
      rw [ih]
      simp only [List.forall_mem_cons]
      constructor
      · exact fun hrest => ⟨by simp [hs, Except.isOk, Except.toBool], hrest⟩
      · exact fun h => h.2

/-- C8: the run succeeds — the output file is written (the `ok` value)
and the process exits 0 — exactly when argument validation, the
district fetch, municipality discovery, and every single municipality
scrape succeed; any fatal failure (usage/validation error, transport
error, `NoMunicipalitiesFound`, `NoPartyResultsFound`) yields an
`error` result carrying no file content, the write happening only after
the whole loop has finished. -/
theorem mainModel_success_iff :
    ∀ (join : String → String → String) (argv : List String) (site : Site),
      (mainModel join argv site).isOk = true ↔
        ∃ args anchors ms,
          parse_args argv = Except.ok args ∧
          site.district args.1 = Except.ok anchors ∧
          find_municipalities join args.1 anchors = Except.ok ms ∧
          ∀ m ∈ ms, (scrape_municipality site.pages m).isOk = true := by
  intro join argv site
  unfold mainModel
  cases hp : parse_args argv with
  | error e =>
    refine iff_of_false (by simp [Bind.bind, Except.bind, Except.isOk, Except.toBool]) ?_
    rintro ⟨args, anchors, ms, hpa, -⟩
    exact Except.noConfusion hpa
  | ok args =>
    simp only [Bind.bind, Except.bind]
    cases hd : site.district args.1 with
    | error e =>
      refine iff_of_false (by simp [Except.isOk, Except.toBool]) ?_
      rintro ⟨args', anchors, ms, hpa, hda, -⟩
      injection hpa with h1
      rw [← h1] at hda
      rw [hd] at hda
      exact Except.noConfusion hda
    | ok anchors =>
      dsimp only
      cases hf : find_municipalities join args.1 anchors with
      | error e =>
        refine iff_of_false (by simp [Except.isOk, Except.toBool]) ?_
        rintro ⟨args', anchors', ms, hpa, hda, hfa, -⟩
        injection hpa with h1
        rw [← h1] at hda hfa
        rw [hd] at hda
        injection hda with h2
        rw [← h2] at hfa
        rw [hf] at hfa
        exact Except.noConfusion hfa
      | ok ms =>
        dsimp only
        constructor
        · intro hok
          refine ⟨args, anchors, ms, rfl, hd, hf, ?_⟩
          rw [← loopGo_isOk_iff site.pages ms [] []]
          cases hl : loopGo site.pages ms [] [] with
          | error e =>
            rw [hl] at hok
            simp [Except.isOk, Except.toBool] at hok
          | ok res => simp [hl, Except.isOk, Except.toBool]
        · rintro ⟨args', anchors', ms', hpa, hda, hfa, hall⟩
          injection hpa with h1
          rw [← h1] at hda hfa
          rw [hd] at hda
          injection hda with h2
          rw [← h2] at hfa
          rw [hf] at hfa
          injection hfa with h3
          rw [← h3] at hall
          have hlo := (loopGo_isOk_iff site.pages ms [] []).mpr hall
          cases hl : loopGo site.pages ms [] [] with
          | error e =>
            rw [hl] at hlo
            simp [Except.isOk, Except.toBool] at hlo
          | ok res =>
            simp [pure, Except.pure, Except.isOk, Except.toBool]

/-! ### C3: deduplication by identifier -/

lemma addSeen_cons (seen : List String) (c : String) (l : List String) :
    addSeen seen (c :: l) = addSeen (if c ∈ seen then seen else seen ++ [c]) l := rfl

lemma addSeen_mem (l : List String) :
    ∀ (seen : List String) (c : String), c ∈ addSeen seen l ↔ c ∈ seen ∨ c ∈ l := by
  induction l with
  | nil => simp [addSeen]
  | cons d l ih =>
    intro seen c
    rw [addSeen_cons, ih]
    by_cases hd : d ∈ seen
    · rw [if_pos hd]
      constructor
      · rintro (h | h)
        · exact Or.inl h
        · exact Or.inr (List.mem_cons_of_mem d h)
      · rintro (h | h)
        · exact Or.inl h
        · rcases List.mem_cons.mp h with rfl | h'
          · exact Or.inl hd
          · exact Or.inr h'
    · rw [if_neg hd]
      simp only [List.mem_append, List.mem_singleton, List.mem_cons]
      tauto

lemma firstSeen_mem (l : List String) (c : String) : c ∈ firstSeen l ↔ c ∈ l := by
  rw [firstSeen, addSeen_mem]
  simp

lemma mem_keys_iff_any (st : List (String × Municipality)) (k : String) :
    (st.any (fun p => p.1 == k)) = true ↔ k ∈ st.map Prod.fst := by
  rw [List.any_eq_true]
  constructor
  · rintro ⟨p, hp, hpk⟩
    exact beq_iff_eq.mp hpk ▸ List.mem_map_of_mem Prod.fst hp
  · intro hk
    obtain ⟨p, hp, hpk⟩ := List.mem_map.mp hk
    exact ⟨p, hp, beq_iff_eq.mpr hpk⟩

lemma updAssoc_keys (st : List (String × Municipality)) (k : String) (v : Municipality) :
    (updAssoc st k v).map Prod.fst =
      if k ∈ st.map Prod.fst then st.map Prod.fst else st.map Prod.fst ++ [k] := by
  unfold updAssoc
  by_cases h : (st.any (fun p => p.1 == k)) = true
  · rw [if_pos h, if_pos ((mem_keys_iff_any st k).mp h), List.map_map]
    apply List.map_congr_left
    intro p hp
    simp only [Function.comp_apply]
    split
    · next hpk => exact (beq_iff_eq.mp hpk).symm
    · rfl
  · rw [if_neg h, if_neg (fun hk => h ((mem_keys_iff_any st k).mpr hk)), List.map_append]
    rfl

lemma updAssoc_nodup (st : List (String × Municipality)) (k : String) (v : Municipality)
    (h : (st.map Prod.fst).Nodup) : ((updAssoc st k v).map Prod.fst).Nodup := by
  rw [updAssoc_keys]
  split
  · exact h
  · next hk =>
    rw [List.nodup_append]
    exact ⟨h, List.nodup_singleton k, fun a ha hb => hk (List.mem_singleton.mp hb ▸ ha)⟩

lemma updAssoc_wellkeyed (st : List (String × Municipality)) (k : String) (v : Municipality)
    (h : ∀ p ∈ st, p.2.code = p.1) (hv : v.code = k) :
    ∀ p ∈ updAssoc st k v, p.2.code = p.1 := by
  unfold updAssoc
  split
  · intro p hp
    obtain ⟨q, hq, rfl⟩ := List.mem_map.mp hp
    split
    · exact hv
    · exact h q hq
  · intro p hp
    rcases List.mem_append.mp hp with h' | h'
    · exact h p h'
    · rw [List.mem_singleton.mp h']
      exact hv

lemma find?_map_ne (st : List (String × Municipality)) (k k' : String) (v : Municipality)
    (h : k' ≠ k) :
    (st.map (fun p => if p.1 == k then (k, v) else p)).find? (fun p => p.1 == k') =
      st.find? (fun p => p.1 == k') := by
  induction st with
  | nil => rfl
  | cons q st ih =>
    have hkk : (k == k') = false := by simpa using (Ne.symm h)
    rw [List.map_cons]
    by_cases hq : (q.1 == k) = true
    · have hq' : q.1 = k := beq_iff_eq.mp hq
      rw [if_pos hq, List.find?_cons_of_neg _ (by simp [hkk]),
        List.find?_cons_of_neg _ (by simp [hq', hkk])]
      exact ih
    · rw [if_neg hq]
      cases hqk : (q.1 == k') with
      | true =>
        rw [@List.find?_cons_of_pos _ (fun p => p.1 == k') q _ hqk,
          @List.find?_cons_of_pos _ (fun p => p.1 == k') q _ hqk]
      | false =>
        rw [List.find?_cons_of_neg _ (by simp [hqk]),
          List.find?_cons_of_neg _ (by simp [hqk])]
        exact ih

lemma find?_map_self (st : List (String × Municipality)) (k : String) (v : Municipality)
    (h : (st.any (fun p => p.1 == k)) = true) :
    (st.map (fun p => if p.1 == k then (k, v) else p)).find? (fun p => p.1 == k) =
      some (k, v) := by
  induction st with
  | nil => simp at h
  | cons q st ih =>
    rw [List.map_cons]
    by_cases hq : (q.1 == k) = true
    · rw [if_pos hq, List.find?_cons_of_pos _ (by simp)]
    · rw [if_neg hq, @List.find?_cons_of_neg _ (fun p => p.1 == k) q _ hq]
      exact ih (by simpa [List.any_cons, hq] using h)

lemma find?_append_self (st : List (String × Municipality)) (k : String) (v : Municipality)
    (h : (st.any (fun p => p.1 == k)) = false) :
    (st ++ [(k, v)]).find? (fun p => p.1 == k) = some (k, v) := by
  induction st with
  | nil => rw [List.nil_append, List.find?_cons_of_pos _ (by simp)]
  | cons q st ih =>
    rw [List.any_cons, Bool.or_eq_false_iff] at h
    rw [List.cons_append, List.find?_cons_of_neg _ (by simp [h.1])]
    exact ih h.2

lemma find?_append_ne (st : List (String × Municipality)) (k k' : String) (v : Municipality)
    (h : k' ≠ k) :
    (st ++ [(k, v)]).find? (fun p => p.1 == k') = st.find? (fun p => p.1 == k') := by
  induction st with
  | nil =>
    have hkk : (k == k') = false := by simpa using (Ne.symm h)
    rw [List.nil_append, List.find?_cons_of_neg _ (by simp [hkk])]
  | cons q st ih =>
    cases hq : (q.1 == k') with
    | true =>
      rw [List.cons_append, @List.find?_cons_of_pos _ (fun p => p.1 == k') q _ hq,
        @List.find?_cons_of_pos _ (fun p => p.1 == k') q _ hq]
    | false =>
      rw [List.cons_append, List.find?_cons_of_neg _ (by simp [hq]),
        List.find?_cons_of_neg _ (by simp [hq])]
      exact ih

lemma assocFind_updAssoc (st : List (String × Municipality)) (k : String) (v : Municipality)
    (k' : String) :
    assocFind (updAssoc st k v) k' = if k' = k then some v else assocFind st k' := by
  by_cases hk : k' = k
  · subst hk
    rw [if_pos rfl]
    unfold updAssoc assocFind
    by_cases h : (st.any (fun p => p.1 == k')) = true
    · rw [if_pos h, find?_map_self st k' v h]
      rfl
    · rw [if_neg h, find?_append_self st k' v (Bool.eq_false_iff.mpr h)]
      rfl
  · rw [if_neg hk]
    unfold updAssoc assocFind
    by_cases h : (st.any (fun p => p.1 == k)) = true
    · rw [if_pos h, find?_map_ne st k k' v hk]
    · rw [if_neg h, find?_append_ne st k k' v hk]

lemma assocFind_of_mem (st : List (String × Municipality)) (hnd : (st.map Prod.fst).Nodup)
    (p : String × Municipality) (hp : p ∈ st) : assocFind st p.1 = some p.2 := by
  induction st with
  | nil => cases hp
  | cons q st ih =>
    rcases List.mem_cons.mp hp with rfl | hp'
    · rw [assocFind, List.find?_cons_of_pos _ (by simp)]
      rfl
    · have hnd' : (st.map Prod.fst).Nodup := (List.nodup_cons.mp hnd).2
      have hq1 : (q.1 == p.1) = false := by
        rw [beq_eq_false_iff_ne]
        intro he
        exact (List.nodup_cons.mp hnd).1 (he ▸ List.mem_map_of_mem Prod.fst hp')
      rw [assocFind, List.find?_cons_of_neg _ (by simp [hq1])]
      exact ih hnd' hp'

lemma lastWith_nil (k : String) : lastWith [] k = none := rfl

lemma lastWith_cons (m : Municipality) (q : List Municipality) (k : String) :
    lastWith (m :: q) k =
      match lastWith q k with
      | some x => some x
      | none => if (m.code == k) = true then some m else none := by
  unfold lastWith
  rw [List.filter_cons]
  by_cases hm : (m.code == k) = true
  · rw [if_pos hm]
    cases hf : q.filter (fun x => x.code == k) with
    | nil => simp [hf, hm]
    | cons y ys =>
      cases hgl : (y :: ys).getLast? with
      | none => simp at hgl
      | some z => simp [hf, List.getLast?_cons_cons, hgl]
  · rw [if_neg hm]
    cases hlw : (q.filter (fun x => x.code == k)).getLast? with
    | none => simp [hlw, hm]
    | some x => simp [hlw]

lemma foldl_upd_invariant (q : List Municipality) :
    ∀ st : List (String × Municipality),
      (∀ p ∈ st, p.2.code = p.1) → (st.map Prod.fst).Nodup →
      ((q.foldl (fun acc m => updAssoc acc m.code m) st).map Prod.fst =
          addSeen (st.map Prod.fst) (q.map Municipality.code)) ∧
      (∀ p ∈ q.foldl (fun acc m => updAssoc acc m.code m) st, p.2.code = p.1) ∧
      ((q.foldl (fun acc m => updAssoc acc m.code m) st).map Prod.fst).Nodup ∧
      (∀ k, assocFind (q.foldl (fun acc m => updAssoc acc m.code m) st) k =
          match lastWith q k with
          | some x => some x
          | none => assocFind st k) := by
  induction q with
  | nil =>
    intro st hwk hnd
    refine ⟨rfl, hwk, hnd, fun k => ?_⟩
    rw [lastWith_nil]
    rfl
  | cons m q ih =>
    intro st hwk hnd
    have hwk1 := updAssoc_wellkeyed st m.code m hwk rfl
    have hnd1 := updAssoc_nodup st m.code m hnd
    obtain ⟨ha, hb, hc, hd⟩ := ih (updAssoc st m.code m) hwk1 hnd1
    refine ⟨?_, ?_, ?_, fun k => ?_⟩
    · rw [List.foldl_cons, ha, updAssoc_keys, List.map_cons, addSeen_cons]
    · rw [List.foldl_cons]
      exact hb
    · rw [List.foldl_cons]
      exact hc
    · rw [List.foldl_cons, hd k, lastWith_cons]
      cases hlw : lastWith q k with
      | some x => rfl
      | none =>
        rw [assocFind_updAssoc]
        by_cases hk : k = m.code
        · rw [if_pos hk]
          have : (m.code == k) = true := beq_iff_eq.mpr hk.symm
          simp [this]
        · rw [if_neg hk]
          have : (m.code == k) = false := by
            rw [beq_eq_false_iff_ne]
            exact fun he => hk he.symm
          simp [this]

/-- C3: on a district page with at least one qualifying link,
`find_municipalities` succeeds and returns one entry per distinct
identifier among the qualifying links (its length is the number of
distinct identifiers); the identifiers appear in first-seen order, and
each returned entry is the last-seen qualifying entry for its
identifier. -/
theorem find_municipalities_dedup :
    ∀ (join : String → String → String) (base : String) (anchors : List Anchor),
      anchors.filterMap (anchorEntry join base) ≠ [] →
      ∃ r, find_municipalities join base anchors = Except.ok r ∧
        r.map Municipality.code =
          firstSeen ((anchors.filterMap (anchorEntry join base)).map Municipality.code) ∧
        r.length =
          ((anchors.filterMap (anchorEntry join base)).map Municipality.code).toFinset.card ∧
        ∀ m ∈ r, lastWith (anchors.filterMap (anchorEntry join base)) m.code = some m := by
  intro join base anchors hne
  obtain ⟨ha, hb, hc, hd⟩ :=
    foldl_upd_invariant (anchors.filterMap (anchorEntry join base)) [] (by simp) (by simp)
  have hkeys : ((anchors.filterMap (anchorEntry join base)).foldl
      (fun acc m => updAssoc acc m.code m) []).map Prod.fst =
      firstSeen ((anchors.filterMap (anchorEntry join base)).map Municipality.code) := ha
  have hrcode : (dedupByCode (anchors.filterMap (anchorEntry join base))).map Municipality.code =
      firstSeen ((anchors.filterMap (anchorEntry join base)).map Municipality.code) := by
    rw [dedupByCode, List.map_map, ← hkeys]
    exact List.map_congr_left (fun p hp => hb p hp)
  have hfsnodup : (firstSeen
      ((anchors.filterMap (anchorEntry join base)).map Municipality.code)).Nodup :=
    hkeys ▸ hc
  have hlen : (dedupByCode (anchors.filterMap (anchorEntry join base))).length =
      ((anchors.filterMap (anchorEntry join base)).map Municipality.code).toFinset.card := by
    have h1 : (dedupByCode (anchors.filterMap (anchorEntry join base))).length =
        (firstSeen ((anchors.filterMap (anchorEntry join base)).map Municipality.code)).length := by
      rw [← hrcode, List.length_map]
    have hfs : (firstSeen
        ((anchors.filterMap (anchorEntry join base)).map Municipality.code)).toFinset =
        ((anchors.filterMap (anchorEntry join base)).map Municipality.code).toFinset := by
      apply Finset.ext
      intro a
      simp [List.mem_toFinset, firstSeen_mem]
    rw [h1, ← List.toFinset_card_of_nodup hfsnodup, hfs]
  have hempty : dedupByCode (anchors.filterMap (anchorEntry join base)) ≠ [] := by
    intro h0
    have hmapnil : (dedupByCode (anchors.filterMap (anchorEntry join base))).map
        Municipality.code = [] := by rw [h0]; rfl
    rw [hrcode] at hmapnil
    cases hqq : anchors.filterMap (anchorEntry join base) with
    | nil => exact hne hqq
    | cons m q' =>
      have hmem : m.code ∈ firstSeen
          ((anchors.filterMap (anchorEntry join base)).map Municipality.code) :=
        (firstSeen_mem _ _).mpr (by rw [hqq]; simp)
      rw [hmapnil] at hmem
      cases hmem
  refine ⟨dedupByCode (anchors.filterMap (anchorEntry join base)), ?_, hrcode, hlen, ?_⟩
  · unfold find_municipalities
    rw [if_neg (by simpa [List.isEmpty_iff] using hempty)]
  · intro m hm
    rw [dedupByCode, List.mem_map] at hm
    obtain ⟨p, hp, rfl⟩ := hm
    have hfind := assocFind_of_mem _ hc p hp
    have hmatch := hd p.1
    rw [hfind] at hmatch
    cases hlw : lastWith (anchors.filterMap (anchorEntry join base)) p.1 with
    | some x =>
      rw [hlw] at hmatch
      injection hmatch with hx
      rw [hb p hp, hlw, hx]
    | none =>
      rw [hlw] at hmatch
      exact Option.noConfusion hmatch

/-- Witness for C3: a district page with three qualifying links, two
sharing identifier "1". -/
theorem find_municipalities_dedup_inst :
    ∃ r, find_municipalities (fun _ u => u) "b"
        [⟨"a?xobec=1", "1", some ["1", "A"]⟩, ⟨"b?xobec=2", "2", some ["2", "B"]⟩,
          ⟨"c?xobec=1", "1", some ["1", "C"]⟩] = Except.ok r ∧
      r.map Municipality.code =
        firstSeen (([⟨"a?xobec=1", "1", some ["1", "A"]⟩, ⟨"b?xobec=2", "2", some ["2", "B"]⟩,
          ⟨"c?xobec=1", "1", some ["1", "C"]⟩] : List Anchor).filterMap
            (anchorEntry (fun _ u => u) "b") |>.map Municipality.code) ∧
      r.length =
        (([⟨"a?xobec=1", "1", some ["1", "A"]⟩, ⟨"b?xobec=2", "2", some ["2", "B"]⟩,
          ⟨"c?xobec=1", "1", some ["1", "C"]⟩] : List Anchor).filterMap
            (anchorEntry (fun _ u => u) "b") |>.map Municipality.code).toFinset.card ∧
      ∀ m ∈ r, lastWith (([⟨"a?xobec=1", "1", some ["1", "A"]⟩,
          ⟨"b?xobec=2", "2", some ["2", "B"]⟩, ⟨"c?xobec=1", "1", some ["1", "C"]⟩] :
            List Anchor).filterMap (anchorEntry (fun _ u => u) "b")) m.code = some m :=
  find_municipalities_dedup (fun _ u => u) "b"
    [⟨"a?xobec=1", "1", some ["1", "A"]⟩, ⟨"b?xobec=2", "2", some ["2", "B"]⟩,
      ⟨"c?xobec=1", "1", some ["1", "C"]⟩] (by decide)

end Scraper
